import Mathlib

/-!
Verification of the `command` IP-source module of
`mietzen/caddy-dynamicdns-cmd-source` (file `command.go`, first — current —
implementation; the second block in the file is the legacy variant that the
spec explicitly supersedes).

Go strings are modelled as `List Char` (rune sequences; the delimiter `,`
and every character the parser inspects are ASCII, so byte-level and
rune-level processing coincide where it matters).
-/

namespace CmdSource

/-- Whitespace test of Go's `unicode.IsSpace` (the Latin-1 special cases
plus the Unicode `White_Space` class), the predicate behind
`strings.TrimSpace` as used by `GetIPs`. -/
def goIsSpace (c : Char) : Bool :=
  c.toNat = 9 || c.toNat = 10 || c.toNat = 11 || c.toNat = 12 || c.toNat = 13 ||
  c.toNat = 32 || c.toNat = 133 || c.toNat = 160 || c.toNat = 5760 ||
  (8192 ≤ c.toNat && c.toNat ≤ 8202) || c.toNat = 8232 || c.toNat = 8233 ||
  c.toNat = 8239 || c.toNat = 8287 || c.toNat = 12288

/-- Leading-whitespace removal, the first half of Go's `strings.TrimSpace`. -/
def trimLeft (l : List Char) : List Char := l.dropWhile goIsSpace

/-- Trailing-whitespace removal, the second half of Go's
`strings.TrimSpace`: drops the maximal all-space suffix. -/
def trimRight : List Char → List Char
  | [] => []
  | c :: rest =>
    let r := trimRight rest
    if r = [] && goIsSpace c then [] else c :: r

/-- Model of Go's `strings.TrimSpace`. -/
def trim (l : List Char) : List Char := trimRight (trimLeft l)

/-- Model of Go's `strings.Split(s, ",")`: `n` commas yield `n + 1`
pieces; the empty string yields one empty piece. -/
def splitOnComma : List Char → List (List Char)
  | [] => [[]]
  | c :: rest =>
    if c = ',' then [] :: splitOnComma rest
    else
      match splitOnComma rest with
      | [] => [[c]]
      | p :: ps => (c :: p) :: ps

/-- Parsed `netip.Addr`: raw bytes (4 from `parseIPv4`, 16 from
`parseIPv6`), the storage form (`form4 = true` exactly for the 4-byte
form, mirroring `Addr.Is4`), and the IPv6 zone (empty when absent). -/
structure GoAddr where
  bytes : List Nat
  form4 : Bool
  zone : List Char
deriving DecidableEq

/-- Mirror of `netip.Addr.Is4` on parsed addresses. -/
def GoAddr.is4 (a : GoAddr) : Bool := a.form4

/-- Mirror of `netip.Addr.Is6` on parsed addresses (every parsed address
is stored either 4-byte or 16-byte, so `Is6 = !Is4` here). -/
def GoAddr.is6 (a : GoAddr) : Bool := !a.form4

/-- Model of `netip.parseIPv4Fields`: strict dotted-decimal scan.
State: remaining input, current octet value, digits in the current octet,
committed octet count, committed octets. Rejects a second digit after a
leading zero, octet values above 255, a dot with no digit before it or
nothing after it, a fifth octet, and any foreign character. -/
def parseIPv4Fields : List Char → Nat → Nat → Nat → List Nat → Option (List Nat)
  | [], val, _, pos, acc =>
    if pos < 3 then none else some (acc ++ [val])
  | c :: rest, val, digLen, pos, acc =>
    if '0' ≤ c && c ≤ '9' then
      if digLen = 1 && val = 0 then none
      else
        let v := val * 10 + (c.toNat - 48)
        if v > 255 then none
        else parseIPv4Fields rest v (digLen + 1) pos acc
    else if c = '.' then
      if digLen = 0 || rest = [] then none
      else if pos = 3 then none
      else parseIPv4Fields rest 0 0 (pos + 1) (acc ++ [val])
    else none

/-- Model of `netip.parseIPv4`: a successful field scan gives the 4-byte
form with no zone. -/
def parseIPv4 (s : List Char) : Option GoAddr :=
  match parseIPv4Fields s 0 0 0 [] with
  | none => none
  | some fields => some ⟨fields, true, []⟩

/-- Value of a hexadecimal digit, as accepted by the group scan inside
`netip.parseIPv6`. -/
def hexVal (c : Char) : Option Nat :=
  if '0' ≤ c && c ≤ '9' then some (c.toNat - 48)
  else if 'a' ≤ c && c ≤ 'f' then some (c.toNat - 87)
  else if 'A' ≤ c && c ≤ 'F' then some (c.toNat - 55)
  else none

/-- Inlined hex-group scan of `netip.parseIPv6`: consumes hex digits,
accumulating the group value; errors on a fifth digit (the `off > 3`
check) or an accumulator at or above `2 ^ 16` (unreachable with at most
four digits, kept for fidelity). Returns the accumulator, the digit
count, and the unconsumed remainder. -/
def scanHexGroup : Nat → Nat → List Char → Option (Nat × Nat × List Char)
  | acc, off, [] => some (acc, off, [])
  | acc, off, c :: rest =>
    match hexVal c with
    | none => some (acc, off, c :: rest)
    | some d =>
      let a := acc * 16 + d
      if off > 3 then none
      else if a > 65535 then none
      else scanHexGroup a (off + 1) rest

/-- Zone split at the start of `netip.parseIPv6`: the input is cut at the
first `%`; everything after it is the zone, which must be non-empty but is
otherwise unconstrained (it may even contain commas or spaces). -/
def splitZone : List Char → Option (List Char × List Char)
  | [] => some ([], [])
  | c :: rest =>
    if c = '%' then
      if rest = [] then none else some ([], rest)
    else
      match splitZone rest with
      | none => none
      | some (s, z) => some (c :: s, z)

/-- Main loop of `netip.parseIPv6` (`for i < 16`). State: bytes written
so far (`ip`, `i = ip.length`), ellipsis position, remaining text. Each
round scans one hex group; a group followed by a dot switches to the
embedded-IPv4 scan over the whole remaining text; otherwise the 16-bit
group is appended and a colon (possibly doubled, recording the ellipsis)
must follow unless the text ends. The fuel only bounds the recursion;
the loop makes at most 8 rounds, so 16 is never exhausted. Returns the
bytes, the ellipsis position, the byte count, and the unconsumed text. -/
def v6Loop : Nat → Nat → List Nat → Option Nat → List Char →
    Option (List Nat × Option Nat × Nat × List Char)
  | 0, _, _, _, _ => none
  | fuel + 1, i, ip, ell, s =>
    if i < 16 then
      match scanHexGroup 0 0 s with
      | none => none
      | some (acc, off, rest) =>
        if off = 0 then none
        else if rest.head? = some '.' then
          if ell.isNone && i ≠ 12 then none
          else if i + 4 > 16 then none
          else
            match parseIPv4Fields s 0 0 0 [] with
            | none => none
            | some fields => some (ip ++ fields, ell, i + 4, [])
        else
          let ip2 := ip ++ [acc / 256, acc % 256]
          let i2 := i + 2
          match rest with
          | [] => some (ip2, ell, i2, [])
          | c :: rest2 =>
            if c ≠ ':' then none
            else
              match rest2 with
              | [] => none
              | c2 :: rest3 =>
                if c2 = ':' then
                  if ell.isSome then none
                  else if rest3 = [] then some (ip2, some i2, i2, [])
                  else v6Loop fuel i2 ip2 (some i2) rest3
                else v6Loop fuel i2 ip2 ell (c2 :: rest3)
    else some (ip, ell, i, s)

/-- Post-loop phase of `netip.parseIPv6`: rejects leftover text, expands
the ellipsis when fewer than 16 bytes were written (inserting the missing
zero bytes at the recorded position), and rejects an ellipsis that would
stand for no group at all. -/
def finishV6 (zone : List Char) :
    Option (List Nat × Option Nat × Nat × List Char) → Option GoAddr
  | none => none
  | some (ip, ell, i, sLeft) =>
    if sLeft ≠ [] then none
    else if i < 16 then
      match ell with
      | none => none
      | some e => some ⟨ip.take e ++ List.replicate (16 - i) 0 ++ ip.drop e, false, zone⟩
    else if ell.isSome then none
    else some ⟨ip, false, zone⟩

/-- Model of `netip.parseIPv6`: split off the zone, handle a leading
`::` (alone it is the unspecified address), run the loop, finish. -/
def parseIPv6 (inp : List Char) : Option GoAddr :=
  match splitZone inp with
  | none => none
  | some (s0, zone) =>
    match s0 with
    | ':' :: ':' :: s1 =>
      if s1 = [] then some ⟨List.replicate 16 0, false, zone⟩
      else finishV6 zone (v6Loop 16 0 [] (some 0) s1)
    | _ => finishV6 zone (v6Loop 16 0 [] none s0)

/-- Dispatch scan of `netip.ParseAddr`: the first occurrence of `.`,
`:` or `%` decides the format; a leading-`%` form or no marker at all is
an error. -/
def classify : List Char → Option Char
  | [] => none
  | c :: rest => if c = '.' || c = ':' || c = '%' then some c else classify rest

/-- Model of `netip.ParseAddr`, the validator `GetIPs` applies to every
non-empty trimmed token. -/
def parseAddr (s : List Char) : Option GoAddr :=
  match classify s with
  | some c => if c = '.' then parseIPv4 s else if c = ':' then parseIPv6 s else none
  | none => none

/-- Face of `dynamicdns.IPSettings` that `GetIPs` consults: the two
family-enablement accessors (`V4Enabled`, `V6Enabled`) and the
range-policy predicate (`Contains`). The tri-state pointer encoding
behind the accessors lives in the external package; `GetIPs` only ever
sees these three values. -/
structure IPSettings where
  v4Enabled : Bool
  v6Enabled : Bool
  contains : GoAddr → Bool

/-- Errors `exec.Cmd.Run` can return, per the documented `os/exec`
contract: a start failure (`exec.Error`, which embeds the command name)
or an `exec.ExitError` for a process that started but did not succeed
(it embeds the exit status, not the command name). -/
inductive RunError where
  | startError (cmd : List Char)
  | exitError (code : Int)
deriving DecidableEq

/-- Error values `GetIPs` can return: the run error passed through
unchanged (line 125), the formatted command-and-exit-code error
(line 137), or the formatted invalid-IP error naming the offending
token (line 162). -/
inductive GoError where
  | runError (e : RunError)
  | cmdExited (cmd : List Char) (code : Int)
  | invalidIP (tok : List Char)
deriving DecidableEq

/-- Parse-and-filter loop of `GetIPs` (lines 147-179) over the
comma-pieces of the trimmed stdout: each piece is trimmed, empty pieces
are skipped, the first piece `netip.ParseAddr` rejects aborts the call
naming that piece, and a parsed address is kept exactly when the
version-and-range conditions of lines 166-178 hold. -/
def getIPsLoop (st : IPSettings) : List (List Char) → Except GoError (List GoAddr)
  | [] => Except.ok []
  | tok :: rest =>
    let ipStr := trim tok
    if ipStr = [] then getIPsLoop st rest
    else
      match parseAddr ipStr with
      | none => Except.error (GoError.invalidIP ipStr)
      | some addr =>
        let keep :=
          if st.v4Enabled && addr.is4 && st.contains addr then true
          else if st.v6Enabled && addr.is6 && st.contains addr then true
          else false
        match getIPsLoop st rest with
        | Except.error e => Except.error e
        | Except.ok out => Except.ok (if keep then addr :: out else out)

/-- Parsing part of the loop alone (the AddressParser stage): the same
traversal with the filter of lines 166-178 removed. -/
def parseTokens : List (List Char) → Except GoError (List GoAddr)
  | [] => Except.ok []
  | tok :: rest =>
    let ipStr := trim tok
    if ipStr = [] then parseTokens rest
    else
      match parseAddr ipStr with
      | none => Except.error (GoError.invalidIP ipStr)
      | some addr =>
        match parseTokens rest with
        | Except.error e => Except.error e
        | Except.ok out => Except.ok (addr :: out)

/-- Full parsing stage applied to a captured stdout text: trim the whole
text, split on commas, run the parse loop (line 147 onwards, without the
filter). -/
def parseStage (stdout : List Char) : Except GoError (List GoAddr) :=
  parseTokens (splitOnComma (trim stdout))

/-- First non-empty trimmed comma-piece that `netip.ParseAddr` rejects,
if any: the token an all-or-nothing parse must report. -/
def firstInvalidToken : List (List Char) → Option (List Char)
  | [] => none
  | tok :: rest =>
    let ipStr := trim tok
    if ipStr = [] then firstInvalidToken rest
    else if (parseAddr ipStr).isNone then some ipStr
    else firstInvalidToken rest

/-- Configuration fields of the `Command` module after config decoding:
`Cmd`, `Args`, `Dir`, and the nullable `Timeout` (a `caddy.Duration`,
i.e. nanoseconds in an `int64`). -/
structure CommandConf where
  cmd : List Char
  args : List (List Char)
  dir : List Char
  timeout : Option Int

/-- Timeout resolution of `Provision` (lines 75-78): a nil or
non-positive timeout becomes the 30-second default (in nanoseconds), a
positive one is kept unchanged. -/
def provisionTimeout : Option Int → Option Int
  | none => some 30000000000
  | some t => if t ≤ 0 then some 30000000000 else some t

/-- Timeout-installation branch of `GetIPs` (lines 99-102): a context
deadline is installed only for a non-nil positive timeout; a nil timeout
is tolerated here without any dereference. -/
def contextDeadline : Option Int → Option Int
  | none => none
  | some t => if t > 0 then some t else none

/-- How a run of the external process can end, as observable by `GetIPs`
through `os/exec`: either the process could not be started, or it
started and exited with some code after writing the captured streams. -/
inductive ProcOutcome where
  | startFailed (cmd : List Char)
  | exited (code : Int) (stdout stderr : List Char)

/-- Error reported by `cmd.Run()` for each outcome, following the
documented `os/exec` contract: `Run` returns nil exactly when the
process starts and exits with status 0; a non-zero exit yields an
`exec.ExitError`, a start failure an `exec.Error`. -/
def runErrorOf : ProcOutcome → Option RunError
  | ProcOutcome.startFailed cmd => some (RunError.startError cmd)
  | ProcOutcome.exited code _ _ =>
    if code = 0 then none else some (RunError.exitError code)

/-- Value of `cmd.ProcessState.ExitCode()` after `Run` (only consulted
on the nil-error path, where it is 0). -/
def procExitCode : ProcOutcome → Int
  | ProcOutcome.startFailed _ => -1
  | ProcOutcome.exited code _ _ => code

/-- Captured stdout buffer after the run. -/
def procStdout : ProcOutcome → List Char
  | ProcOutcome.startFailed _ => []
  | ProcOutcome.exited _ out _ => out

/-- Captured stderr buffer after the run. -/
def procStderr : ProcOutcome → List Char
  | ProcOutcome.startFailed _ => []
  | ProcOutcome.exited _ _ err => err

/-- Result of a `GetIPs` call. `nilPanic` models the run-time panic of
the unguarded `*c.Timeout` dereference in the debug-log call (line 113),
which precedes `cmd.Run()`. -/
inductive GetIPsResult where
  | ok (ips : List GoAddr)
  | err (e : GoError)
  | nilPanic
deriving DecidableEq

/-- Model of `GetIPs` (lines 83-182). Control flow, in source order:
the debug log dereferences `c.Timeout` unconditionally (panic when nil,
line 113); `cmd.Run()`'s error, if any, is returned as-is (lines
116-126); a non-zero `ExitCode()` with a nil run error would produce the
formatted error of line 137; otherwise the stdout text is trimmed, split
on commas, parsed and filtered (lines 147-181). The process outcome is
abstract input; argument expansion (lines 89-97) has no effect on the
result and is modelled separately by `buildInvocation`. -/
def getIPs (c : CommandConf) (outcome : ProcOutcome) (st : IPSettings) : GetIPsResult :=
  match c.timeout with
  | none => GetIPsResult.nilPanic
  | some _ =>
    match runErrorOf outcome with
    | some e => GetIPsResult.err (GoError.runError e)
    | none =>
      if procExitCode outcome ≠ 0 then
        GetIPsResult.err (GoError.cmdExited c.cmd (procExitCode outcome))
      else
        match getIPsLoop st (splitOnComma (trim (procStdout outcome))) with
        | Except.error e => GetIPsResult.err e
        | Except.ok out => GetIPsResult.ok out

/-- Whether the warning of lines 140-145 is logged: only on the success
path, and exactly when the captured stderr is non-empty. -/
def stderrWarned (outcome : ProcOutcome) : Bool :=
  match runErrorOf outcome with
  | some _ => false
  | none =>
    if procExitCode outcome ≠ 0 then false
    else !(procStderr outcome).isEmpty

/-- Placeholder scan of `caddy.Replacer.ReplaceAll(arg, "")` as invoked
on line 96: text is copied verbatim; an opening brace starts a
placeholder whose key runs to the first closing brace; the key is
replaced by its looked-up value, or by the empty string when unknown
(`ReplaceAll` treats unknown placeholders as empty); a placeholder never
closed is emitted verbatim. The `key` accumulator holds the pending
placeholder characters in reverse. Escaped braces are not modelled. -/
def replaceScan (lookup : List Char → Option (List Char)) :
    Option (List Char) → List Char → List Char
  | none, [] => []
  | some key, [] => '{' :: key.reverse
  | none, c :: rest =>
    if c = '{' then replaceScan lookup (some []) rest
    else c :: replaceScan lookup none rest
  | some key, c :: rest =>
    if c = '}' then ((lookup key.reverse).getD []) ++ replaceScan lookup none rest
    else replaceScan lookup (some (c :: key)) rest

/-- Model of `replacer.ReplaceAll(arg, "")`. -/
def replaceAll (lookup : List Char → Option (List Char)) (s : List Char) : List Char :=
  replaceScan lookup none s

/-- Lines 94-97: every argument is expanded, index by index. -/
def expandArgs (lookup : List Char → Option (List Char))
    (args : List (List Char)) : List (List Char) :=
  args.map (replaceAll lookup)

/-- What reaches `exec.CommandContext` (lines 104-105): command string,
argument vector, working directory. -/
structure Invocation where
  cmd : List Char
  args : List (List Char)
  dir : List Char
deriving DecidableEq

/-- Lines 89-105 as a value: the spawned invocation, with expanded
arguments and the command string passed through without any expansion. -/
def buildInvocation (c : CommandConf)
    (lookup : List Char → Option (List Char)) : Invocation :=
  { cmd := c.cmd, args := expandArgs lookup c.args, dir := c.dir }

/-- Equality of run results is decidable, so concrete witnesses can be
checked by evaluation. -/
instance exceptDecEq {ε α : Type} [DecidableEq ε] [DecidableEq α] :
    DecidableEq (Except ε α) := fun x y =>
  match x, y with
  | Except.ok a, Except.ok b =>
    if h : a = b then isTrue (by rw [h])
    else isFalse (by intro hc; cases hc; exact h rfl)
  | Except.error a, Except.error b =>
    if h : a = b then isTrue (by rw [h])
    else isFalse (by intro hc; cases hc; exact h rfl)
  | Except.ok _, Except.error _ => isFalse (by intro hc; cases hc)
  | Except.error _, Except.ok _ => isFalse (by intro hc; cases hc)

/-- Pass predicate of the filter stage as the spec states it: the
address family's enablement flag holds and the range policy admits the
address. -/
def keepAddr (st : IPSettings) (a : GoAddr) : Bool :=
  (if a.is4 then st.v4Enabled else st.v6Enabled) && st.contains a

/-- A token of a well-formed command output together with the arbitrary
whitespace printed around it. -/
structure WsTok where
  pre : List Char
  tok : List Char
  post : List Char

/-- Concrete text a wrapped token contributes to the output. -/
def WsTok.flat (w : WsTok) : List Char := w.pre ++ w.tok ++ w.post

/-- Comma-joined output text: the pieces separated by single commas. -/
def joinComma : List (List Char) → List Char
  | [] => []
  | p :: ps =>
    match ps with
    | [] => p
    | _ :: _ => p ++ ',' :: joinComma ps

/-- Property of a string consisting of whitespace only. -/
@[reducible] def allSpace (l : List Char) : Prop := ∀ c ∈ l, goIsSpace c = true

/-- Property of a token free of whitespace and commas (every address
literal without a zone suffix satisfies it). -/
@[reducible] def cleanTok (l : List Char) : Prop := ∀ c ∈ l, goIsSpace c = false ∧ c ≠ ','

/-! Helper lemmas about the string primitives. -/

theorem goIsSpace_ne_comma {c : Char} (h : goIsSpace c = true) : c ≠ ',' := by
  intro hc
  subst hc
  exact absurd h (by decide)

theorem trimLeft_append_space {p : List Char} (l : List Char)
    (hp : allSpace p) : trimLeft (p ++ l) = trimLeft l := by
  induction p with
  | nil => rfl
  | cons c p ih =>
    have hc : goIsSpace c = true := hp c (List.mem_cons_self c p)
    have hp2 : allSpace p := fun d hd => hp d (List.mem_cons_of_mem c hd)
    simp only [trimLeft, List.cons_append, List.dropWhile_cons, hc, if_true]
    exact ih hp2

theorem trimLeft_cons_nospace {c : Char} {l : List Char}
    (h : goIsSpace c = false) : trimLeft (c :: l) = c :: l := by
  simp only [trimLeft, List.dropWhile_cons, h]
  simp

theorem trimRight_allSpace {l : List Char} (h : allSpace l) : trimRight l = [] := by
  induction l with
  | nil => rfl
  | cons c l ih =>
    have hc : goIsSpace c = true := h c (List.mem_cons_self c l)
    have h2 : allSpace l := fun d hd => h d (List.mem_cons_of_mem c hd)
    simp [trimRight, ih h2, hc]

theorem trimRight_append_space {q : List Char} (x : List Char)
    (hq : allSpace q) : trimRight (x ++ q) = trimRight x := by
  induction x with
  | nil => simpa using trimRight_allSpace hq
  | cons c x ih => simp [trimRight, ih]

theorem trimRight_noSpace {x : List Char}
    (h : ∀ c ∈ x, goIsSpace c = false) : trimRight x = x := by
  induction x with
  | nil => rfl
  | cons c x ih =>
    have hc : goIsSpace c = false := h c (List.mem_cons_self c x)
    have h2 : ∀ d ∈ x, goIsSpace d = false := fun d hd => h d (List.mem_cons_of_mem c hd)
    simp [trimRight, ih h2, hc]

theorem trimRight_append_of_ne_nil {y : List Char} (x : List Char)
    (h : trimRight y ≠ []) : trimRight (x ++ y) = x ++ trimRight y := by
  induction x with
  | nil => rfl
  | cons c x ih =>
    have hne : x ++ trimRight y ≠ [] := by
      intro hx
      exact h (List.append_eq_nil.mp hx).2
    simp [trimRight, ih, hne]

theorem trimRight_ne_nil {y : List Char}
    (h : ∃ c ∈ y, goIsSpace c = false) : trimRight y ≠ [] := by
  induction y with
  | nil => simp at h
  | cons c y ih =>
    rcases h with ⟨d, hd, hds⟩
    rcases List.mem_cons.mp hd with rfl | hdy
    · cases hy : trimRight y with
      | nil => simp [trimRight, hy, hds]
      | cons e r => simp [trimRight, hy]
    · have : trimRight y ≠ [] := ih ⟨d, hdy, hds⟩
      simp [trimRight, this]

theorem trim_wrapped {p t q : List Char} (hp : allSpace p) (hq : allSpace q)
    (ht : ∀ c ∈ t, goIsSpace c = false) (hne : t ≠ []) :
    trim (p ++ t ++ q) = t := by
  cases t with
  | nil => exact absurd rfl hne
  | cons c t =>
    have hc : goIsSpace c = false := ht c (List.mem_cons_self c t)
    have h1 : trimLeft (p ++ c :: t ++ q) = c :: (t ++ q) := by
      rw [List.append_assoc, trimLeft_append_space _ hp, List.cons_append,
        trimLeft_cons_nospace hc]
    have h2 : trimRight (c :: (t ++ q)) = c :: t := by
      rw [← List.cons_append, trimRight_append_space (c :: t) hq, trimRight_noSpace ht]
    rw [trim, h1, h2]

theorem splitOnComma_ne_nil (l : List Char) : splitOnComma l ≠ [] := by
  induction l with
  | nil => simp [splitOnComma]
  | cons c l ih =>
    by_cases hc : c = ','
    · simp [splitOnComma, hc]
    · cases hs : splitOnComma l with
      | nil => exact absurd hs ih
      | cons p ps => simp [splitOnComma, hc, hs]

theorem splitOnComma_no_comma {x : List Char} (h : ',' ∉ x) :
    splitOnComma x = [x] := by
  induction x with
  | nil => rfl
  | cons c x ih =>
    have hc : ¬ c = ',' := fun hc => h (hc ▸ List.mem_cons_self c x)
    have hx : ',' ∉ x := fun hm => h (List.mem_cons_of_mem c hm)
    simp [splitOnComma, hc, ih hx]

theorem splitOnComma_append_comma {x : List Char} (z : List Char) (h : ',' ∉ x) :
    splitOnComma (x ++ ',' :: z) = x :: splitOnComma z := by
  induction x with
  | nil => simp [splitOnComma]
  | cons c x ih =>
    have hc : ¬ c = ',' := fun hc => h (hc ▸ List.mem_cons_self c x)
    have hx : ',' ∉ x := fun hm => h (List.mem_cons_of_mem c hm)
    simp [splitOnComma, hc, ih hx]

theorem parseAddr_ne_nil {t : List Char} {a : GoAddr}
    (h : parseAddr t = some a) : t ≠ [] := by
  intro ht
  subst ht
  simp [parseAddr, classify] at h

/-! Helper lemmas about the parse-and-filter loop. -/

theorem keep_eq_keepAddr (st : IPSettings) (a : GoAddr) :
    (if st.v4Enabled && a.is4 && st.contains a then true
     else if st.v6Enabled && a.is6 && st.contains a then true
     else false) = keepAddr st a := by
  cases h4 : a.form4 <;> simp [keepAddr, GoAddr.is4, GoAddr.is6, h4]

theorem getIPsLoop_eq_filter (st : IPSettings) (toks : List (List Char)) :
    getIPsLoop st toks = Except.map (List.filter (keepAddr st)) (parseTokens toks) := by
  induction toks with
  | nil => rfl
  | cons tok rest ih =>
    by_cases he : trim tok = []
    · simp [getIPsLoop, parseTokens, he, ih]
    · cases hp : parseAddr (trim tok) with
      | none => simp [getIPsLoop, parseTokens, he, hp, Except.map]
      | some a =>
        cases hr : parseTokens rest with
        | error e =>
          have hL : getIPsLoop st rest = Except.error e := by rw [ih, hr]; rfl
          simp [getIPsLoop, parseTokens, he, hp, hr, hL, Except.map]
        | ok l =>
          have hL : getIPsLoop st rest = Except.ok (l.filter (keepAddr st)) := by
            rw [ih, hr]; rfl
          simp only [getIPsLoop, parseTokens, he, hp, hr, hL, ite_false, if_neg,
            not_false_iff]
          rw [keep_eq_keepAddr st a]
          simp [Except.map, List.filter_cons]

theorem getIPsLoop_all_empty (st : IPSettings) (toks : List (List Char))
    (h : ∀ tok ∈ toks, trim tok = []) : getIPsLoop st toks = Except.ok [] := by
  induction toks with
  | nil => rfl
  | cons tok rest ih =>
    have h1 : trim tok = [] := h tok (List.mem_cons_self _ _)
    simp [getIPsLoop, h1, ih (fun t ht => h t (List.mem_cons_of_mem _ ht))]

theorem getIPsLoop_firstInvalid (st : IPSettings) (toks : List (List Char))
    (bad : List Char) (h : firstInvalidToken toks = some bad) :
    getIPsLoop st toks = Except.error (GoError.invalidIP bad) := by
  induction toks with
  | nil => simp [firstInvalidToken] at h
  | cons tok rest ih =>
    by_cases he : trim tok = []
    · simp only [firstInvalidToken, he, if_pos] at h
      simp [getIPsLoop, he, ih h]
    · cases hp : parseAddr (trim tok) with
      | none =>
        simp [firstInvalidToken, he, hp] at h
        subst h
        simp [getIPsLoop, he, hp]
      | some a =>
        simp [firstInvalidToken, he, hp] at h
        simp [getIPsLoop, he, hp, ih h]

theorem firstInvalid_of_exists (toks : List (List Char))
    (h : ∃ tok ∈ toks, trim tok ≠ [] ∧ parseAddr (trim tok) = none) :
    ∃ bad, firstInvalidToken toks = some bad := by
  induction toks with
  | nil => simp at h
  | cons tok rest ih =>
    rcases h with ⟨t, ht, htne, htp⟩
    rcases List.mem_cons.mp ht with rfl | htr
    · exact ⟨trim t, by simp [firstInvalidToken, htne, htp]⟩
    · by_cases he : trim tok = []
      · rcases ih ⟨t, htr, htne, htp⟩ with ⟨bad, hb⟩
        exact ⟨bad, by simp [firstInvalidToken, he, hb]⟩
      · cases hp : parseAddr (trim tok) with
        | none => exact ⟨trim tok, by simp [firstInvalidToken, he, hp]⟩
        | some a =>
          rcases ih ⟨t, htr, htne, htp⟩ with ⟨bad, hb⟩
          exact ⟨bad, by simp [firstInvalidToken, he, hp, hb]⟩

theorem getIPs_exit0 (c : CommandConf) (st : IPSettings) {t : Int}
    (so se : List Char) (ht : c.timeout = some t) :
    getIPs c (ProcOutcome.exited 0 so se) st =
      match getIPsLoop st (splitOnComma (trim so)) with
      | Except.error e => GetIPsResult.err e
      | Except.ok out => GetIPsResult.ok out := by
  simp [getIPs, ht, runErrorOf, procExitCode, procStdout]

/-! Helper lemmas about the placeholder scan. -/

theorem replaceScan_append_lit (lookup : List Char → Option (List Char))
    {lit : List Char} (x : List Char) (h : '{' ∉ lit) :
    replaceScan lookup none (lit ++ x) = lit ++ replaceScan lookup none x := by
  induction lit with
  | nil => rfl
  | cons c l ih =>
    have hc : ¬ c = '{' := fun hc => h (hc ▸ List.mem_cons_self _ _)
    have hl : '{' ∉ l := fun hm => h (List.mem_cons_of_mem _ hm)
    simp [replaceScan, hc, ih hl]

theorem replaceScan_key (lookup : List Char → Option (List Char))
    (acc : List Char) {key : List Char} (rest : List Char) (h : '}' ∉ key) :
    replaceScan lookup (some acc) (key ++ '}' :: rest) =
      ((lookup (acc.reverse ++ key)).getD []) ++ replaceScan lookup none rest := by
  induction key generalizing acc with
  | nil => simp [replaceScan]
  | cons c k ih =>
    have hc : ¬ c = '}' := fun hc => h (hc ▸ List.mem_cons_self _ _)
    have hk : '}' ∉ k := fun hm => h (List.mem_cons_of_mem _ hm)
    simp only [List.cons_append, replaceScan, hc, ite_false, if_neg, not_false_iff,
      List.append_eq]
    rw [ih (c :: acc) hk]
    simp

/-! Helper lemmas for the well-formed-output theorem. -/

theorem joinComma_cons_flat (w : WsTok) (ps : List (List Char)) :
    joinComma (WsTok.flat w :: ps) =
      w.pre ++ joinComma (WsTok.flat ⟨[], w.tok, w.post⟩ :: ps) := by
  cases ps <;> simp [joinComma, WsTok.flat, List.append_assoc]

theorem joinComma_cons_head (c : Char) (e : List Char) (ps : List (List Char)) :
    ∃ z, joinComma ((c :: e) :: ps) = c :: z := by
  cases ps <;> exact ⟨_, rfl⟩

theorem parse_joined : ∀ (l : List WsTok) (addrs : List GoAddr),
    (∀ w ∈ l, allSpace w.pre ∧ allSpace w.post ∧ cleanTok w.tok) →
    List.Forall₂ (fun (w : WsTok) a => parseAddr w.tok = some a) l addrs →
    l ≠ [] →
    parseTokens (splitOnComma (trimRight (joinComma (l.map WsTok.flat)))) =
      Except.ok addrs := by
  intro l
  induction l with
  | nil => intro addrs _ _ hne; exact absurd rfl hne
  | cons w l ih =>
    intro addrs hgood hparse _
    cases hparse with
    | cons hw htail =>
    rename_i a as
    obtain ⟨hpre, hpost, htok⟩ := hgood w (List.mem_cons_self _ _)
    have htokne : w.tok ≠ [] := parseAddr_ne_nil hw
    have htoknospace : ∀ c ∈ w.tok, goIsSpace c = false := fun c hc => (htok c hc).1
    have hnocomma : ',' ∉ WsTok.flat w := by
      intro hm
      simp only [WsTok.flat] at hm
      rcases List.mem_append.mp hm with hm1 | hm2
      · rcases List.mem_append.mp hm1 with hp1 | ht1
        · exact goIsSpace_ne_comma (hpre ',' hp1) rfl
        · exact (htok ',' ht1).2 rfl
      · exact goIsSpace_ne_comma (hpost ',' hm2) rfl
    have htr : trim (WsTok.flat w) = w.tok := trim_wrapped hpre hpost htoknospace htokne
    cases l with
    | nil =>
      cases htail
      have hne2 : trimRight w.tok ≠ [] := by
        rw [trimRight_noSpace htoknospace]; exact htokne
      have h1 : trimRight (WsTok.flat w) = w.pre ++ w.tok := by
        simp only [WsTok.flat]
        rw [trimRight_append_space _ hpost, trimRight_append_of_ne_nil _ hne2,
          trimRight_noSpace htoknospace]
      have hnc : ',' ∉ w.pre ++ w.tok := by
        intro hm
        refine hnocomma ?_
        simp only [WsTok.flat]
        exact List.mem_append_left _ hm
      have htr1 : trim (w.pre ++ w.tok) = w.tok := by
        have h0 := trim_wrapped (q := []) hpre (by intro d hd; cases hd) htoknospace htokne
        rwa [List.append_nil] at h0
      simp only [List.map_cons, List.map_nil]
      rw [show joinComma [WsTok.flat w] = WsTok.flat w from rfl, h1,
        splitOnComma_no_comma hnc]
      simp [parseTokens, htr1, htokne, hw]
    | cons w2 l2 =>
      have hgood2 : ∀ x ∈ w2 :: l2, allSpace x.pre ∧ allSpace x.post ∧ cleanTok x.tok :=
        fun x hx => hgood x (List.mem_cons_of_mem _ hx)
      have hJ : joinComma ((w :: w2 :: l2).map WsTok.flat) =
          WsTok.flat w ++ ',' :: joinComma ((w2 :: l2).map WsTok.flat) := rfl
      have hcomma : trimRight (',' :: joinComma ((w2 :: l2).map WsTok.flat)) =
          ',' :: trimRight (joinComma ((w2 :: l2).map WsTok.flat)) := by
        simp [trimRight, show goIsSpace ',' = false from by decide]
      have hRne : trimRight (',' :: joinComma ((w2 :: l2).map WsTok.flat)) ≠ [] := by
        rw [hcomma]; simp
      rw [hJ, trimRight_append_of_ne_nil _ hRne, hcomma,
        splitOnComma_append_comma _ hnocomma]
      have IH := ih as hgood2 htail (by simp)
      simp only [List.map_cons] at IH
      simp [parseTokens, htr, htokne, hw, IH]

theorem getIPsLoop_error_invalidIP (st : IPSettings) (toks : List (List Char))
    (e : GoError) (h : getIPsLoop st toks = Except.error e) :
    ∃ tok, e = GoError.invalidIP tok := by
  induction toks with
  | nil => simp [getIPsLoop] at h
  | cons tok rest ih =>
    by_cases he : trim tok = []
    · rw [getIPsLoop, if_pos he] at h
      exact ih h
    · cases hp : parseAddr (trim tok) with
      | none =>
        rw [getIPsLoop, if_neg he] at h
        simp only [hp, Except.error.injEq] at h
        exact ⟨trim tok, h.symm⟩
      | some a =>
        rw [getIPsLoop, if_neg he] at h
        simp only [hp] at h
        cases hL : getIPsLoop st rest with
        | error e2 =>
          rw [hL] at h
          simp only [Except.error.injEq] at h
          rw [h] at hL
          exact ih hL
        | ok out =>
          rw [hL] at h
          simp at h

/-! Claim theorems. -/

/-- Claim C1: for every parsed address sequence and every policy, GetIPs
returns exactly those parsed addresses whose family-enablement flag is
true and which the range policy admits — an address passes iff both
gates hold, failing addresses are dropped silently with no error, and
the survivors keep the relative order of the command output (the result
is a filter of the parsed sequence); in particular a disabled v4 family
leaves no v4 address in the result, and symmetrically for v6. -/
theorem c1_filter_invariant (c : CommandConf) (st : IPSettings) (t : Int)
    (so se : List Char) (l : List GoAddr) (ht : c.timeout = some t)
    (hp : parseTokens (splitOnComma (trim so)) = Except.ok l) :
    getIPs c (ProcOutcome.exited 0 so se) st =
      GetIPsResult.ok (l.filter (keepAddr st)) ∧
    (∀ a ∈ l.filter (keepAddr st),
      (if a.is4 then st.v4Enabled else st.v6Enabled) = true ∧ st.contains a = true) ∧
    (∀ a ∈ l, (if a.is4 then st.v4Enabled else st.v6Enabled) = true →
      st.contains a = true → a ∈ l.filter (keepAddr st)) ∧
    (st.v4Enabled = false → ∀ a ∈ l.filter (keepAddr st), a.is4 = false) ∧
    (st.v6Enabled = false → ∀ a ∈ l.filter (keepAddr st), a.is6 = false) := by
  have hloop : getIPsLoop st (splitOnComma (trim so)) =
      Except.ok (l.filter (keepAddr st)) := by
    rw [getIPsLoop_eq_filter, hp]
    rfl
  refine ⟨?_, ?_, ?_, ?_, ?_⟩
  · rw [getIPs_exit0 c st so se ht, hloop]
  · intro a ha
    have hk : keepAddr st a = true := (List.mem_filter.mp ha).2
    simpa [keepAddr, Bool.and_eq_true] using hk
  · intro a ha h1 h2
    exact List.mem_filter.mpr ⟨ha, by simp [keepAddr, h1, h2]⟩
  · intro h4 a ha
    have hk := (List.mem_filter.mp ha).2
    by_contra h
    have h4t : a.is4 = true := by simpa using h
    simp [keepAddr, h4t, h4] at hk
  · intro h6 a ha
    have hk := (List.mem_filter.mp ha).2
    by_contra h
    have h6t : a.is6 = true := by simpa using h
    have h4f : a.is4 = false := by
      cases hf : a.form4
      · simp [GoAddr.is4, hf]
      · rw [GoAddr.is6, hf] at h6t
        simp at h6t
    simp [keepAddr, h4f, h6] at hk

/-- Witness for C1: output `8.8.8.8,2001:db8::1`, v4 enabled, v6
disabled, permissive range policy — only the v4 address survives. -/
theorem c1_witness :
    getIPs ⟨[], [], [], some 1⟩
        (ProcOutcome.exited 0 ("8.8.8.8,2001:db8::1").data [])
        ⟨true, false, fun _ => true⟩ =
      GetIPsResult.ok [⟨[8, 8, 8, 8], true, []⟩] :=
  (c1_filter_invariant ⟨[], [], [], some 1⟩ ⟨true, false, fun _ => true⟩ 1
      ("8.8.8.8,2001:db8::1").data []
      [⟨[8, 8, 8, 8], true, []⟩,
        ⟨[32, 1, 13, 184, 0, 0, 0, 0, 0, 0, 0, 0, 0, 0, 0, 1], false, []⟩]
      rfl (by decide)).1

/-- Claim C2 counterexample: `netip.ParseAddr` accepts IPv6 zone
suffixes containing commas or whitespace, so the claim fails as stated:
the single syntactically valid literal `::1%a,b` (zone `a,b`) makes the
parsing stage abort with an invalid-IP error naming `b`; and the valid
literal `::1%a ` (zone `a `, with a trailing space) is parsed by the
stage as a different address (zone `a`), so whitespace placement does
change which addresses are produced. -/
theorem c2_counterexample :
    (parseAddr ("::1%a,b").data).isSome = true ∧
    parseStage ("::1%a,b").data = Except.error (GoError.invalidIP ("b").data) ∧
    parseAddr ("::1%a ").data =
      some ⟨[0, 0, 0, 0, 0, 0, 0, 0, 0, 0, 0, 0, 0, 0, 0, 1], false, ("a ").data⟩ ∧
    parseStage ("::1%a ").data =
      Except.ok [⟨[0, 0, 0, 0, 0, 0, 0, 0, 0, 0, 0, 0, 0, 0, 0, 1], false, ("a").data⟩] ∧
    (⟨[0, 0, 0, 0, 0, 0, 0, 0, 0, 0, 0, 0, 0, 0, 0, 1], false, ("a ").data⟩ : GoAddr) ≠
      ⟨[0, 0, 0, 0, 0, 0, 0, 0, 0, 0, 0, 0, 0, 0, 0, 1], false, ("a").data⟩ := by
  exact ⟨by decide, by decide, by decide, by decide, by decide⟩

/-- Claim C2 (amended): for every list of `N` syntactically valid
IPv4/IPv6 address literals that contain no comma and no whitespace
character (`netip.ParseAddr` admits such characters only inside an IPv6
zone suffix), joined with comma delimiters and arbitrary extra
whitespace around each token — whitespace around the whole output is
the first token's leading and the last token's trailing whitespace —
the parsing stage of GetIPs succeeds and yields exactly those `N`
addresses in original order; the quantification over every choice of
surrounding whitespace expresses that its placement never changes the
result. -/
theorem c2_wellformed_parse (l : List WsTok) (addrs : List GoAddr)
    (hgood : ∀ w ∈ l, allSpace w.pre ∧ allSpace w.post ∧ cleanTok w.tok)
    (hparse : List.Forall₂ (fun (w : WsTok) a => parseAddr w.tok = some a) l addrs) :
    parseStage (joinComma (l.map WsTok.flat)) = Except.ok addrs ∧
    addrs.length = l.length := by
  constructor
  · cases l with
    | nil =>
      cases hparse
      rfl
    | cons w l =>
      cases hparse with
      | cons hw htail =>
      rename_i a as
      obtain ⟨hpre, hpost, htok⟩ := hgood w (List.mem_cons_self _ _)
      have htokne : w.tok ≠ [] := parseAddr_ne_nil hw
      have htoknospace : ∀ c ∈ w.tok, goIsSpace c = false := fun c hc => (htok c hc).1
      obtain ⟨c0, t0, htk⟩ : ∃ c0 t0, w.tok = c0 :: t0 := by
        cases h : w.tok with
        | nil => exact absurd h htokne
        | cons c0 t0 => exact ⟨c0, t0, rfl⟩
      have hflat0 : WsTok.flat ⟨[], w.tok, w.post⟩ = c0 :: (t0 ++ w.post) := by
        simp [WsTok.flat, htk]
      obtain ⟨z, hz⟩ := joinComma_cons_head c0 (t0 ++ w.post) (List.map WsTok.flat l)
      have hcsp : goIsSpace c0 = false :=
        htoknospace c0 (by rw [htk]; exact List.mem_cons_self _ _)
      have hTL : trimLeft (joinComma (List.map WsTok.flat (w :: l))) =
          joinComma (WsTok.flat ⟨[], w.tok, w.post⟩ :: List.map WsTok.flat l) := by
        rw [List.map_cons, joinComma_cons_flat, trimLeft_append_space _ hpre, hflat0, hz,
          trimLeft_cons_nospace hcsp, ← hz, ← hflat0]
      have hg2 : ∀ x ∈ (⟨[], w.tok, w.post⟩ : WsTok) :: l,
          allSpace x.pre ∧ allSpace x.post ∧ cleanTok x.tok := by
        intro x hx
        rcases List.mem_cons.mp hx with rfl | hxl
        · exact ⟨(by intro d hd; cases hd), hpost, htok⟩
        · exact hgood x (List.mem_cons_of_mem _ hxl)
      have hp2 : List.Forall₂ (fun (x : WsTok) b => parseAddr x.tok = some b)
          ((⟨[], w.tok, w.post⟩ : WsTok) :: l) (a :: as) :=
        List.Forall₂.cons hw htail
      have hmain := parse_joined _ _ hg2 hp2 (by simp)
      simp only [List.map_cons] at hmain
      simp only [parseStage, trim]
      rw [hTL]
      exact hmain
  · exact (List.Forall₂.length_eq hparse).symm

/-- Witness for C2: two clean literals wrapped in assorted whitespace
parse back to exactly their two addresses. -/
theorem c2_witness :
    parseStage (joinComma (List.map WsTok.flat
        [⟨(" ").data, ("8.8.8.8").data, ("").data⟩,
         ⟨("\t").data, ("2001:db8::1").data, ("  ").data⟩])) =
      Except.ok [⟨[8, 8, 8, 8], true, []⟩,
        ⟨[32, 1, 13, 184, 0, 0, 0, 0, 0, 0, 0, 0, 0, 0, 0, 1], false, []⟩] ∧
    ([⟨[8, 8, 8, 8], true, []⟩,
        ⟨[32, 1, 13, 184, 0, 0, 0, 0, 0, 0, 0, 0, 0, 0, 0, 1], false, []⟩] :
      List GoAddr).length =
      ([⟨(" ").data, ("8.8.8.8").data, ("").data⟩,
        ⟨("\t").data, ("2001:db8::1").data, ("  ").data⟩] : List WsTok).length :=
  c2_wellformed_parse
    [⟨(" ").data, ("8.8.8.8").data, ("").data⟩,
     ⟨("\t").data, ("2001:db8::1").data, ("  ").data⟩]
    [⟨[8, 8, 8, 8], true, []⟩,
     ⟨[32, 1, 13, 184, 0, 0, 0, 0, 0, 0, 0, 0, 0, 0, 0, 1], false, []⟩]
    (by decide)
    (List.Forall₂.cons (by decide) (List.Forall₂.cons (by decide) List.Forall₂.nil))

/-- Claim C3: parsing is all-or-nothing — whenever some comma-piece of
the captured output is non-empty after trimming yet fails strict
address validation, GetIPs returns a single invalid-IP error naming
exactly the first such trimmed token, and no partial address list, even
when valid tokens precede it. -/
theorem c3_all_or_nothing (c : CommandConf) (st : IPSettings) (t : Int)
    (so se : List Char) (ht : c.timeout = some t)
    (h : ∃ tok ∈ splitOnComma (trim so), trim tok ≠ [] ∧ parseAddr (trim tok) = none) :
    ∃ bad, firstInvalidToken (splitOnComma (trim so)) = some bad ∧
      getIPs c (ProcOutcome.exited 0 so se) st =
        GetIPsResult.err (GoError.invalidIP bad) := by
  rcases firstInvalid_of_exists _ h with ⟨bad, hb⟩
  refine ⟨bad, hb, ?_⟩
  rw [getIPs_exit0 c st so se ht, getIPsLoop_firstInvalid st _ bad hb]

/-- Witness for C3: the malformed token `bogus` sits between two valid
addresses and the whole call fails naming it. -/
theorem c3_witness :
    ∃ bad,
      firstInvalidToken (splitOnComma (trim ("8.8.8.8,bogus,1.1.1.1").data)) = some bad ∧
      getIPs ⟨[], [], [], some 1⟩
          (ProcOutcome.exited 0 ("8.8.8.8,bogus,1.1.1.1").data [])
          ⟨true, true, fun _ => true⟩ =
        GetIPsResult.err (GoError.invalidIP bad) :=
  c3_all_or_nothing ⟨[], [], [], some 1⟩ ⟨true, true, fun _ => true⟩ 1
    ("8.8.8.8,bogus,1.1.1.1").data [] rfl
    ⟨("bogus").data, by decide, by decide, by decide⟩

/-- Claim C4: an output whose comma-pieces are all empty after trimming —
covering the empty string, whitespace-only text, and text consisting
only of commas and whitespace — makes GetIPs return an empty address
sequence and no error. -/
theorem c4_empty_output (c : CommandConf) (st : IPSettings) (t : Int)
    (so se : List Char) (ht : c.timeout = some t)
    (h : ∀ tok ∈ splitOnComma (trim so), trim tok = []) :
    getIPs c (ProcOutcome.exited 0 so se) st = GetIPsResult.ok [] := by
  rw [getIPs_exit0 c st so se ht, getIPsLoop_all_empty st _ h]

/-- Witness for C4 at the empty output and at commas-and-whitespace
output. -/
theorem c4_witness :
    getIPs ⟨[], [], [], some 1⟩ (ProcOutcome.exited 0 [] [])
      ⟨true, true, fun _ => true⟩ = GetIPsResult.ok [] ∧
    getIPs ⟨[], [], [], some 1⟩ (ProcOutcome.exited 0 (" , ,, ").data [])
      ⟨true, true, fun _ => true⟩ = GetIPsResult.ok [] :=
  ⟨c4_empty_output ⟨[], [], [], some 1⟩ ⟨true, true, fun _ => true⟩ 1 [] [] rfl
      (by decide),
   c4_empty_output ⟨[], [], [], some 1⟩ ⟨true, true, fun _ => true⟩ 1
      (" , ,, ").data [] rfl (by decide)⟩

/-- Claim C5: a run that exits with code 0 but wrote to stderr is still
a success — GetIPs proceeds to parse stdout (the result is exactly the
parse-and-filter outcome of the captured stdout), the result is
identical to the one with empty stderr, and the stderr surfaces only as
the warning to the logging collaborator; it never converts the success
into a failure. -/
theorem c5_stderr_warning (c : CommandConf) (st : IPSettings) (t : Int)
    (so se : List Char) (ht : c.timeout = some t) (hse : se ≠ []) :
    getIPs c (ProcOutcome.exited 0 so se) st =
      (match getIPsLoop st (splitOnComma (trim so)) with
       | Except.error e => GetIPsResult.err e
       | Except.ok out => GetIPsResult.ok out) ∧
    getIPs c (ProcOutcome.exited 0 so se) st =
      getIPs c (ProcOutcome.exited 0 so []) st ∧
    stderrWarned (ProcOutcome.exited 0 so se) = true := by
  refine ⟨getIPs_exit0 c st so se ht, ?_, ?_⟩
  · rw [getIPs_exit0 c st so se ht, getIPs_exit0 c st so [] ht]
  · simp only [stderrWarned, runErrorOf, procExitCode, procStderr]
    cases se with
    | nil => exact absurd rfl hse
    | cons d ds => simp

/-- Witness for C5: exit 0 with stderr `warn` gives the same result as
with empty stderr, and the warning fires. -/
theorem c5_witness :
    getIPs ⟨[], [], [], some 1⟩
        (ProcOutcome.exited 0 ("8.8.8.8").data ("warn").data)
        ⟨true, true, fun _ => true⟩ =
      getIPs ⟨[], [], [], some 1⟩ (ProcOutcome.exited 0 ("8.8.8.8").data [])
        ⟨true, true, fun _ => true⟩ ∧
    stderrWarned (ProcOutcome.exited 0 ("8.8.8.8").data ("warn").data) = true :=
  ⟨(c5_stderr_warning ⟨[], [], [], some 1⟩ ⟨true, true, fun _ => true⟩ 1
      ("8.8.8.8").data ("warn").data rfl (by decide)).2.1,
   (c5_stderr_warning ⟨[], [], [], some 1⟩ ⟨true, true, fun _ => true⟩ 1
      ("8.8.8.8").data ("warn").data rfl (by decide)).2.2⟩

/-- Claim C6 counterexample: with a timeout configured, a process that
starts and exits with code 2 makes GetIPs return the runner's exit
error unchanged (Go error text `exit status 2`) — a value that differs
from every value of the command-naming shape of line 137 and carries no
command name; so the claim that the returned error identifies both the
command name and the exit code fails on the code. -/
theorem c6_counterexample :
    getIPs ⟨("ipcmd").data, [], [], some 30000000000⟩
        (ProcOutcome.exited 2 [] []) ⟨true, true, fun _ => true⟩ =
      GetIPsResult.err (GoError.runError (RunError.exitError 2)) ∧
    ∀ name k, GoError.runError (RunError.exitError 2) ≠ GoError.cmdExited name k := by
  refine ⟨rfl, fun name k h => ?_⟩
  cases h

/-- Claim C6 (amended): a run that starts and exits with a non-zero code
makes GetIPs fail with no address list; the returned error is the
runner's exit error, which identifies the exit code but not the command
name; and the branch of line 137 that would format an error naming both
is unreachable whatever the outcome, because the runner already reports
every non-zero exit as a run error. -/
theorem c6_nonzero_exit (c : CommandConf) (st : IPSettings) (t code : Int)
    (so se : List Char) (ht : c.timeout = some t) (hc : code ≠ 0) :
    getIPs c (ProcOutcome.exited code so se) st =
      GetIPsResult.err (GoError.runError (RunError.exitError code)) ∧
    (∀ outc name k, getIPs c outc st ≠ GetIPsResult.err (GoError.cmdExited name k)) := by
  constructor
  · simp [getIPs, ht, runErrorOf, hc]
  · intro outc name k
    cases outc with
    | startFailed cmd => simp [getIPs, ht, runErrorOf]
    | exited code2 so2 se2 =>
      by_cases h0 : code2 = 0
      · subst h0
        rw [getIPs_exit0 c st so2 se2 ht]
        cases hL : getIPsLoop st (splitOnComma (trim so2)) with
        | ok out => simp
        | error e =>
          rcases getIPsLoop_error_invalidIP st _ e hL with ⟨tok, rfl⟩
          simp
      · simp [getIPs, ht, runErrorOf, h0]

/-- Witness for C6 (amended) at exit code 7. -/
theorem c6_witness :
    getIPs ⟨("c").data, [], [], some 1⟩ (ProcOutcome.exited 7 [] [])
        ⟨true, true, fun _ => true⟩ =
      GetIPsResult.err (GoError.runError (RunError.exitError 7)) :=
  (c6_nonzero_exit ⟨("c").data, [], [], some 1⟩ ⟨true, true, fun _ => true⟩ 1 7 [] []
      rfl (by decide)).1

/-- Claim C8: Provision resolves the timeout — a nil or non-positive
configured value becomes exactly 30 seconds (30000000000 nanoseconds as
a `caddy.Duration`), and a positive value is kept unchanged. -/
theorem c8_provision_timeout (t : Int) :
    provisionTimeout none = some 30000000000 ∧
    (t ≤ 0 → provisionTimeout (some t) = some 30000000000) ∧
    (0 < t → provisionTimeout (some t) = some t) := by
  refine ⟨rfl, fun h => ?_, fun h => ?_⟩
  · simp [provisionTimeout, h]
  · simp [provisionTimeout, show ¬ t ≤ 0 from not_le.mpr h]

/-- Witness for C8 at a negative and a positive configured timeout. -/
theorem c8_witness :
    provisionTimeout (some (-5)) = some 30000000000 ∧
    provisionTimeout (some 7) = some 7 :=
  ⟨(c8_provision_timeout (-5)).2.1 (by decide),
   (c8_provision_timeout 7).2.2 (by decide)⟩

/-- Claim C9: argument expansion is an index-preserving map, so the
expanded list has the same length and order as the template list; a
placeholder whose key resolves is replaced by its value, an unresolved
one by the empty string (the scan is total — no error condition
exists); and the executable string reaches the process spawner
identical to the configured command, never placeholder-expanded. -/
theorem c9_expansion (c : CommandConf) (lookup : List Char → Option (List Char))
    (lit key rest : List Char) (hlit : '{' ∉ lit) (hkey : '}' ∉ key) :
    (buildInvocation c lookup).cmd = c.cmd ∧
    (buildInvocation c lookup).args = c.args.map (replaceAll lookup) ∧
    (buildInvocation c lookup).args.length = c.args.length ∧
    replaceAll lookup (lit ++ '{' :: key ++ '}' :: rest) =
      lit ++ ((lookup key).getD []) ++ replaceAll lookup rest := by
  refine ⟨rfl, rfl, by simp [buildInvocation, expandArgs], ?_⟩
  rw [replaceAll, List.append_assoc, replaceScan_append_lit lookup _ hlit,
    List.cons_append]
  have h1 : replaceScan lookup none ('{' :: (key ++ '}' :: rest)) =
      replaceScan lookup (some []) (key ++ '}' :: rest) := by
    simp [replaceScan]
  rw [h1, replaceScan_key lookup [] rest hkey]
  simp [replaceAll, List.append_assoc]

/-- Witness for C9: one resolving and the surrounding literal text. -/
theorem c9_witness :
    (buildInvocation ⟨("mycmd").data, [("a-").data], [], some 1⟩
        (fun k => if k = ("host").data then some ("x.example").data else none)).cmd =
      ("mycmd").data ∧
    replaceAll (fun k => if k = ("host").data then some ("x.example").data else none)
        (("a-").data ++ '{' :: ("host").data ++ '}' :: ("!").data) =
      ("a-").data ++
        (((fun k => if k = ("host").data then some ("x.example").data else none)
            ("host").data).getD []) ++
        replaceAll (fun k => if k = ("host").data then some ("x.example").data else none)
          (("!").data) := by
  have h := c9_expansion ⟨("mycmd").data, [("a-").data], [], some 1⟩
    (fun k => if k = ("host").data then some ("x.example").data else none)
    ("a-").data ("host").data ("!").data (by decide) (by decide)
  exact ⟨h.1, h.2.2.2⟩

/-- Claim C10: after Provision the timeout is a non-nil strictly
positive duration, which makes the unconditional dereference in
GetIPs's debug-log call safe (no panic when a timeout is present);
conversely, calling GetIPs on a Command whose timeout is nil reaches
the unguarded dereference and panics, even though the
timeout-installation branch just before it tolerates a nil timeout. -/
theorem c10_timeout_safety (t0 : Option Int) (c : CommandConf)
    (outc : ProcOutcome) (st : IPSettings) (t : Int) :
    (∃ v, provisionTimeout t0 = some v ∧ 0 < v) ∧
    (c.timeout = some t → getIPs c outc st ≠ GetIPsResult.nilPanic) ∧
    (c.timeout = none → getIPs c outc st = GetIPsResult.nilPanic) ∧
    contextDeadline none = none := by
  refine ⟨?_, ?_, ?_, rfl⟩
  · cases t0 with
    | none => exact ⟨30000000000, rfl, by decide⟩
    | some v =>
      by_cases hv : v ≤ 0
      · exact ⟨30000000000, by simp [provisionTimeout, hv], by decide⟩
      · exact ⟨v, by simp [provisionTimeout, hv], by omega⟩
  · intro ht
    cases outc with
    | startFailed cmd => simp [getIPs, ht, runErrorOf]
    | exited code so se =>
      by_cases h0 : code = 0
      · subst h0
        rw [getIPs_exit0 c st so se ht]
        cases getIPsLoop st (splitOnComma (trim so)) <;> simp
      · simp [getIPs, ht, runErrorOf, h0]
  · intro ht
    simp [getIPs, ht]

/-- Witness for C10: a present timeout never panics; a nil timeout
panics. -/
theorem c10_witness :
    getIPs ⟨[], [], [], some 1⟩ (ProcOutcome.exited 0 [] [])
      ⟨true, true, fun _ => true⟩ ≠ GetIPsResult.nilPanic ∧
    getIPs ⟨[], [], [], none⟩ (ProcOutcome.exited 0 [] [])
      ⟨true, true, fun _ => true⟩ = GetIPsResult.nilPanic :=
  ⟨(c10_timeout_safety none ⟨[], [], [], some 1⟩ (ProcOutcome.exited 0 [] [])
      ⟨true, true, fun _ => true⟩ 1).2.1 rfl,
   (c10_timeout_safety none ⟨[], [], [], none⟩ (ProcOutcome.exited 0 [] [])
      ⟨true, true, fun _ => true⟩ 1).2.2.1 rfl⟩

end CmdSource
